import Mathlib

/-!
Verification of the tabular Q-learning implementation in `q_learning.py`
(functions `make_epsilon_greedy_policy` and `q_learning`).

Shallow embedding conventions:
* States and actions are natural numbers (the Python code treats them as
  opaque hashable keys resp. integer indices).
* Real-valued quantities (numpy floats) are modelled as rationals `ℚ`.
* The Q table (`collections.defaultdict(lambda: np.zeros(env.nA))`) is an
  association list `List (ℕ × List ℚ)`.  Reading `Q[s]` on a Python
  defaultdict *inserts* the key on a miss; this effect is modelled
  explicitly by `qtouch`, and the value read by `qget`.
* The environment collaborator (`env.reset`, `env.step`, `env.nA`) is a
  record of explicit-state functions that may fail (`Except String`),
  modelling Python exceptions raised inside the environment.
* `np.random.choice(4, p=action_probs)` draws one uniform sample
  `u ∈ [0,1)` from the pseudo-random stream and inverts the cumulative
  distribution; it raises a ValueError when `len(p) ≠ 4`.  The stream is
  an explicit argument `rng : ℕ → ℚ` together with a draw counter.
* The unbounded per-episode loop `for i in itertools.count()` is given
  explicit fuel; running out of fuel (`RunErr.fuelErr`) corresponds to the
  Python loop not having terminated yet.
* `print` calls are cosmetic and not modelled.
-/

/-- The Q table: `defaultdict` from state to an `nA`-length value vector. -/
abbrev QTable := List (ℕ × List ℚ)

/-- Value read of `Q[s]`: the stored row, or the default `np.zeros(nA)`
for an absent key. -/
def qget (nA : ℕ) (Q : QTable) (s : ℕ) : List ℚ :=
  match Q.lookup s with
  | some v => v
  | none => List.replicate nA 0

/-- Key-set effect of reading `Q[s]` on a `defaultdict`: a miss inserts
the default row `np.zeros(nA)`; a hit leaves the table unchanged. -/
def qtouch (nA : ℕ) (Q : QTable) (s : ℕ) : QTable :=
  match Q.lookup s with
  | some _ => Q
  | none => (s, List.replicate nA 0) :: Q

/-- In-place overwrite of the row bound to key `s` (dict assignment: the
unique binding of `s` is replaced; the key is present whenever this is
used, having been touched before). -/
def qupdate : QTable → ℕ → List ℚ → QTable
  | [], _, _ => []
  | (k, v) :: Q, s, row =>
    if k = s then (s, row) :: Q else (k, v) :: qupdate Q s row

/-- `l[i] = v` on a numpy array (in range; out of range unreachable in the
modelled code paths). -/
def setAt : List ℚ → ℕ → ℚ → List ℚ
  | [], _, _ => []
  | _ :: xs, 0, v => v :: xs
  | x :: xs, n + 1, v => x :: setAt xs n v

/-- `l[i] += v` on a numpy array. -/
def addAt : List ℚ → ℕ → ℚ → List ℚ
  | [], _, _ => []
  | x :: xs, 0, v => (x + v) :: xs
  | x :: xs, n + 1, v => x :: addAt xs n v

/-- `np.max` over a nonempty vector (0 on the empty vector, unreachable). -/
def maxList : List ℚ → ℚ
  | [] => 0
  | [x] => x
  | x :: y :: xs => max x (maxList (y :: xs))

/-- `np.argmax`: index of the first occurrence of the maximum value. -/
def argmax (l : List ℚ) : ℕ :=
  l.indexOf (maxList l)

/-- Errors a run can surface: an exception raised by the environment, the
ValueError of `np.random.choice` on a size mismatch, or exhausted fuel
(the Python loop still running). -/
inductive RunErr
  | envErr : String → RunErr
  | sizeErr : RunErr
  | fuelErr : RunErr
deriving DecidableEq, Repr

/-- Environment collaborator with internal state `E`:
`reset() -> state`, `step(action) -> (next_state, reward, done, info)`
(the opaque `info` is dropped), and the action count `nA`. -/
structure Env (E : Type) where
  nA : ℕ
  reset : E → Except String (ℕ × E)
  step : E → ℕ → Except String (ℕ × ℚ × Bool × E)

/-- `make_epsilon_greedy_policy(Q, epsilon, nA)`'s inner `policy_fn`:
`policy = np.ones(nA) * (epsilon / nA); best = np.argmax(Q[observation]);
policy[best] += 1 - epsilon`.  Returns the probability vector together
with the table after the `Q[observation]` defaultdict read. -/
def make_epsilon_greedy_policy (Q : QTable) (epsilon : ℚ) (nA : ℕ)
    (observation : ℕ) : List ℚ × QTable :=
  let Qt := qtouch nA Q observation
  let best_action := argmax (qget nA Qt observation)
  (addAt (List.replicate nA (epsilon / (nA : ℚ))) best_action (1 - epsilon), Qt)

/-- Inverse-CDF sampling used by `np.random.choice(n, p)`: the least index
whose cumulative probability exceeds the uniform draw `u`. -/
def sampleIdx : List ℚ → ℚ → ℕ
  | [], _ => 0
  | [_], _ => 0
  | x :: y :: xs, u => if u < x then 0 else sampleIdx (y :: xs) (u - x) + 1

/-- `np.random.choice(4, p=action_probs)` as written on line 73: the
sample-space size is the hardcoded constant 4, and numpy raises
`ValueError: a and p must have same size` when `len(p) ≠ 4`. -/
def sample4 (p : List ℚ) (u : ℚ) : Except RunErr ℕ :=
  if p.length = 4 then .ok (sampleIdx p u) else .error .sizeErr

/-- The assignment on lines 81–82:
`Q[state][action] += alpha * (reward + discount_factor *
np.max(Q[next_state][best_next_action]) - Q[state][action])`, where
`best_next_action = np.argmax(Q[next_state])` (line 76) and `np.max` of
the already-scalar `Q[next_state][best_next_action]` is that scalar. -/
def td_update (alpha discount_factor qsa reward : ℚ) (qnext : List ℚ)
    (best_next_action : ℕ) : ℚ :=
  qsa + alpha * (reward + discount_factor * qnext.getD best_next_action 0 - qsa)

/-- Well-formedness of a Q table per the data model: every stored row has
length `nA` (the code only ever stores rows created as `np.zeros(nA)` and
overwritten entrywise). -/
def QWF (nA : ℕ) (Q : QTable) : Prop :=
  ∀ p ∈ Q, p.2.length = nA

instance (nA : ℕ) (Q : QTable) : Decidable (QWF nA Q) :=
  List.decidableBAll _ Q

/-- Mutable state of a training run: the Q table, the two statistics
arrays, the environment's internal state, and the random-draw counter. -/
structure RunState (E : Type) where
  Q : QTable
  lengths : List ℚ
  rewards : List ℚ
  envs : E
  rc : ℕ

/-- One iteration of the inner `for i in itertools.count()` loop
(lines 71–87 minus the `done` test): query the policy, sample an action,
step the environment, record statistics, apply the TD update.  Returns
the new run state, the next state and the `done` flag. -/
def qstep (env : Env E) (discount_factor alpha epsilon : ℚ) (rng : ℕ → ℚ)
    (i_episode : ℕ) (rs : RunState E) (state : ℕ) (i : ℕ) :
    Except RunErr (RunState E × ℕ × Bool) :=
  let pr := make_epsilon_greedy_policy rs.Q epsilon env.nA state
  let action_probs := pr.1
  let Q1 := pr.2
  match sample4 action_probs (rng rs.rc) with
  | .error er => .error er
  | .ok action =>
    match env.step rs.envs action with
    | .error msg => .error (.envErr msg)
    | .ok (next_state, reward, done, e') =>
      let Q2 := qtouch env.nA Q1 next_state
      let best_next_action := argmax (qget env.nA Q2 next_state)
      let rewards' := addAt rs.rewards i_episode reward
      let lengths' := setAt rs.lengths i_episode (i : ℚ)
      let Q3 := qtouch env.nA Q2 state
      let row := qget env.nA Q3 state
      let newv := td_update alpha discount_factor (row.getD action 0) reward
        (qget env.nA Q2 next_state) best_next_action
      .ok (⟨qupdate Q3 state (setAt row action newv), lengths', rewards', e', rs.rc + 1⟩,
           next_state, done)

/-- The inner episode loop `for i in itertools.count(): … if done: break`,
with explicit fuel for the unbounded iteration. -/
def runEpisodeAux (env : Env E) (discount_factor alpha epsilon : ℚ)
    (rng : ℕ → ℚ) (i_episode : ℕ) :
    ℕ → RunState E → ℕ → ℕ → Except RunErr (RunState E)
  | 0, _, _, _ => .error .fuelErr
  | fuel + 1, rs, state, i =>
    match qstep env discount_factor alpha epsilon rng i_episode rs state i with
    | .error er => .error er
    | .ok (rs', next_state, done) =>
      if done then .ok rs'
      else runEpisodeAux env discount_factor alpha epsilon rng i_episode
        fuel rs' next_state (i + 1)

/-- The outer `for i_episode in range(num_episodes)` loop: reset the
environment, then run the episode to termination. -/
def runEpisodesAux (env : Env E) (discount_factor alpha epsilon : ℚ)
    (rng : ℕ → ℚ) (fuel : ℕ) :
    ℕ → ℕ → RunState E → Except RunErr (RunState E)
  | _, 0, rs => .ok rs
  | i_episode, k + 1, rs =>
    match env.reset rs.envs with
    | .error msg => .error (.envErr msg)
    | .ok (state, e') =>
      match runEpisodeAux env discount_factor alpha epsilon rng i_episode
          fuel { rs with envs := e' } state 0 with
      | .error er => .error er
      | .ok rs' => runEpisodesAux env discount_factor alpha epsilon rng fuel
          (i_episode + 1) k rs'

/-- Final result of a run, as returned on line 88: the Q table and the
`EpisodeStats` named tuple. -/
structure RunResult where
  Q : QTable
  episode_lengths : List ℚ
  episode_rewards : List ℚ
deriving DecidableEq, Repr

/-- `q_learning(env, num_episodes, discount_factor, alpha, epsilon)`:
`Q = defaultdict(lambda: np.zeros(env.nA))`, statistics pre-allocated as
`np.zeros(num_episodes)`, then the episode loop. -/
def q_learning (env : Env E) (e0 : E) (num_episodes : ℕ)
    (discount_factor alpha epsilon : ℚ) (rng : ℕ → ℚ) (fuel : ℕ) :
    Except RunErr RunResult :=
  match runEpisodesAux env discount_factor alpha epsilon rng fuel 0 num_episodes
      ⟨[], List.replicate num_episodes 0, List.replicate num_episodes 0, e0, 0⟩ with
  | .error er => .error er
  | .ok rs => .ok ⟨rs.Q, rs.lengths, rs.rewards⟩

/-- Invariant of the statistics arrays (§3 of the spec): both have length
`num_episodes` and all entries are non-negative. -/
def StatsInv (n : ℕ) (lengths rewards : List ℚ) : Prop :=
  lengths.length = n ∧ rewards.length = n ∧
  (∀ x ∈ lengths, 0 ≤ x) ∧ (∀ x ∈ rewards, 0 ≤ x)

/-- The environment collaborator only ever returns non-negative rewards. -/
def RewardNonneg {E : Type} (env : Env E) : Prop :=
  ∀ (e : E) (a ns : ℕ) (r : ℚ) (d : Bool) (e2 : E),
    env.step e a = .ok (ns, r, d, e2) → 0 ≤ r

/-- Shape part of the statistics invariant, holding for every
environment regardless of its rewards: both arrays have length
`num_episodes` and every recorded episode length is non-negative. -/
def ShapeInv (n : ℕ) (lengths rewards : List ℚ) : Prop :=
  lengths.length = n ∧ rewards.length = n ∧ (∀ x ∈ lengths, 0 ≤ x)

/-! Concrete environments used to evaluate the embedding on closed inputs. -/

/-- A 4-action environment that moves to state 1, pays reward 1 and
terminates on every step. -/
def env4W : Env Unit :=
  { nA := 4, reset := fun _ => .ok (0, ()), step := fun _ _ => .ok (1, 1, true, ()) }

/-- A 2-action environment (the spec's own end-to-end scenario has 2
actions): moves to state 1, pays reward 1, terminates on every step. -/
def env2W : Env Unit :=
  { nA := 2, reset := fun _ => .ok (0, ()), step := fun _ _ => .ok (1, 1, true, ()) }

/-- A 4-action environment paying reward `-1` on every step (as cost-based
environments such as cliff walking do), terminating immediately. -/
def envNegW : Env Unit :=
  { nA := 4, reset := fun _ => .ok (0, ()), step := fun _ _ => .ok (1, -1, true, ()) }

/-- A 4-action environment whose `reset` raises. -/
def envResetErrW : Env Unit :=
  { nA := 4, reset := fun _ => .error ("reset failed"),
    step := fun _ _ => .ok (1, 1, true, ()) }

/-- A 4-action environment whose `step` raises. -/
def envStepErrW : Env Unit :=
  { nA := 4, reset := fun _ => .ok (0, ()),
    step := fun _ _ => .error ("step failed") }

/-! ### Helper lemmas about the list primitives -/

theorem length_setAt (l : List ℚ) (n : ℕ) (v : ℚ) :
    (setAt l n v).length = l.length := by
  induction l generalizing n with
  | nil => rfl
  | cons x xs ih =>
    cases n with
    | zero => rfl
    | succ m => simp [setAt, ih]

theorem length_addAt (l : List ℚ) (n : ℕ) (v : ℚ) :
    (addAt l n v).length = l.length := by
  induction l generalizing n with
  | nil => rfl
  | cons x xs ih =>
    cases n with
    | zero => rfl
    | succ m => simp [addAt, ih]

theorem getD_setAt_self (l : List ℚ) (n : ℕ) (v d : ℚ) (h : n < l.length) :
    (setAt l n v).getD n d = v := by
  induction l generalizing n with
  | nil => simp at h
  | cons x xs ih =>
    cases n with
    | zero => rfl
    | succ m => simpa [setAt] using ih m (by simpa using h)

theorem getD_setAt_ne (l : List ℚ) (m n : ℕ) (v d : ℚ) (h : m ≠ n) :
    (setAt l n v).getD m d = l.getD m d := by
  induction l generalizing m n with
  | nil => rfl
  | cons x xs ih =>
    cases n with
    | zero =>
      cases m with
      | zero => exact absurd rfl h
      | succ k => simp [setAt]
    | succ n0 =>
      cases m with
      | zero => simp [setAt]
      | succ k => simpa [setAt] using ih k n0 (by omega)

theorem getD_addAt_self (l : List ℚ) (n : ℕ) (v d : ℚ) (h : n < l.length) :
    (addAt l n v).getD n d = l.getD n d + v := by
  induction l generalizing n with
  | nil => simp at h
  | cons x xs ih =>
    cases n with
    | zero => rfl
    | succ m => simpa [addAt] using ih m (by simpa using h)

theorem getD_addAt_ne (l : List ℚ) (m n : ℕ) (v d : ℚ) (h : m ≠ n) :
    (addAt l n v).getD m d = l.getD m d := by
  induction l generalizing m n with
  | nil => rfl
  | cons x xs ih =>
    cases n with
    | zero =>
      cases m with
      | zero => exact absurd rfl h
      | succ k => simp [addAt]
    | succ n0 =>
      cases m with
      | zero => simp [addAt]
      | succ k => simpa [addAt] using ih k n0 (by omega)

theorem mem_setAt (l : List ℚ) (n : ℕ) (v x : ℚ) (hx : x ∈ setAt l n v) :
    x ∈ l ∨ x = v := by
  induction l generalizing n with
  | nil => simp [setAt] at hx
  | cons y ys ih =>
    cases n with
    | zero =>
      rcases List.mem_cons.mp hx with rfl | h2
      · exact Or.inr rfl
      · exact Or.inl (List.mem_cons_of_mem _ h2)
    | succ m =>
      rcases List.mem_cons.mp hx with rfl | h2
      · exact Or.inl (List.mem_cons_self _ _)
      · rcases ih m h2 with h3 | h3
        · exact Or.inl (List.mem_cons_of_mem _ h3)
        · exact Or.inr h3

theorem mem_addAt (l : List ℚ) (n : ℕ) (v x : ℚ) (hx : x ∈ addAt l n v) :
    x ∈ l ∨ ∃ y ∈ l, x = y + v := by
  induction l generalizing n with
  | nil => simp [addAt] at hx
  | cons y ys ih =>
    cases n with
    | zero =>
      rcases List.mem_cons.mp hx with rfl | h2
      · exact Or.inr ⟨y, List.mem_cons_self _ _, rfl⟩
      · exact Or.inl (List.mem_cons_of_mem _ h2)
    | succ m =>
      rcases List.mem_cons.mp hx with rfl | h2
      · exact Or.inl (List.mem_cons_self _ _)
      · rcases ih m h2 with h3 | ⟨z, hz, rfl⟩
        · exact Or.inl (List.mem_cons_of_mem _ h3)
        · exact Or.inr ⟨z, List.mem_cons_of_mem _ hz, rfl⟩

theorem sum_addAt (l : List ℚ) (n : ℕ) (v : ℚ) (h : n < l.length) :
    (addAt l n v).sum = l.sum + v := by
  induction l generalizing n with
  | nil => simp at h
  | cons x xs ih =>
    cases n with
    | zero => simp [addAt]; ring
    | succ m =>
      have := ih m (by simpa using h)
      simp [addAt, this]; ring

theorem getD_replicate_lt (n j : ℕ) (x d : ℚ) (h : j < n) :
    (List.replicate n x).getD j d = x := by
  induction n generalizing j with
  | zero => omega
  | succ m ih =>
    cases j with
    | zero => rfl
    | succ k => simpa [List.replicate] using ih k (by omega)

theorem sampleIdx_lt_length : ∀ (p : List ℚ) (u : ℚ), p ≠ [] →
    sampleIdx p u < p.length
  | [], _, h => absurd rfl h
  | [_], _, _ => by simp [sampleIdx]
  | x :: y :: xs, u, _ => by
    by_cases hu : u < x
    · simp [sampleIdx, hu]
    · have h2 := sampleIdx_lt_length (y :: xs) (u - x) (by simp)
      simp only [sampleIdx, if_neg hu, List.length_cons] at h2 ⊢
      omega

/-! ### `np.max` / `np.argmax` lemmas -/

theorem maxList_mem : ∀ (l : List ℚ), l ≠ [] → maxList l ∈ l
  | [], h => absurd rfl h
  | [x], _ => by simp [maxList]
  | x :: y :: xs, _ => by
    have ih := maxList_mem (y :: xs) (by simp)
    simp only [maxList]
    rcases max_choice x (maxList (y :: xs)) with h1 | h1 <;> rw [h1]
    · exact List.mem_cons_self _ _
    · exact List.mem_cons_of_mem _ ih

theorem le_maxList : ∀ (l : List ℚ) (x : ℚ), x ∈ l → x ≤ maxList l
  | [], x, h => by simp at h
  | [y], x, h => by
    rcases List.mem_singleton.mp h with rfl
    simp [maxList]
  | y :: z :: xs, x, h => by
    simp only [maxList]
    rcases List.mem_cons.mp h with rfl | h2
    · exact le_max_left _ _
    · exact le_trans (le_maxList (z :: xs) x h2) (le_max_right _ _)

theorem getD_ne_of_lt_indexOf (l : List ℚ) (a : ℚ) (j : ℕ) (d : ℚ)
    (h : j < l.indexOf a) : l.getD j d ≠ a := by
  induction l generalizing j with
  | nil => simp [List.indexOf_nil] at h
  | cons x xs ih =>
    by_cases hx : x = a
    · rw [List.indexOf_cons_eq _ hx] at h
      omega
    · rw [List.indexOf_cons_ne _ hx] at h
      cases j with
      | zero => simpa using hx
      | succ m => simpa using ih m (Nat.lt_of_succ_lt_succ h)

theorem argmax_lt_length (l : List ℚ) (h : l ≠ []) : argmax l < l.length :=
  List.indexOf_lt_length.mpr (maxList_mem l h)

theorem getD_argmax (l : List ℚ) (h : l ≠ []) (d : ℚ) :
    l.getD (argmax l) d = maxList l := by
  have hlt : argmax l < l.length := argmax_lt_length l h
  rw [List.getD_eq_getElem _ _ hlt]
  exact List.getElem_indexOf hlt

theorem getD_lt_argmax_lt (l : List ℚ) (j : ℕ) (h : j < argmax l) :
    l.getD j 0 < maxList l := by
  have hne : l.getD j 0 ≠ maxList l := getD_ne_of_lt_indexOf l (maxList l) j 0 h
  have hj : j < l.length := lt_of_lt_of_le h (List.indexOf_le_length)
  have hmem : l.getD j 0 ∈ l := by
    rw [List.getD_eq_getElem _ _ hj]
    exact List.getElem_mem _
  exact lt_of_le_of_ne (le_maxList l _ hmem) hne

/-! ### Q-table lemmas -/

theorem lookup_cons_self (s : ℕ) (v : List ℚ) (Q : QTable) :
    List.lookup s ((s, v) :: Q) = some v := by
  simp [List.lookup]

theorem lookup_cons_ne (s k : ℕ) (v : List ℚ) (Q : QTable) (hk : s ≠ k) :
    List.lookup s ((k, v) :: Q) = List.lookup s Q := by
  have hb : (s == k) = false := beq_eq_false_iff_ne.mpr hk
  simp [List.lookup, hb]

theorem lookup_mem {Q : QTable} {s : ℕ} {v : List ℚ}
    (h : Q.lookup s = some v) : (s, v) ∈ Q := by
  induction Q with
  | nil => simp [List.lookup] at h
  | cons p Q ih =>
    obtain ⟨k, w⟩ := p
    by_cases hk : s = k
    · subst hk
      rw [lookup_cons_self] at h
      cases h
      exact List.mem_cons_self _ _
    · rw [lookup_cons_ne _ _ _ _ hk] at h
      exact List.mem_cons_of_mem _ (ih h)

theorem length_qget (nA : ℕ) (Q : QTable) (s : ℕ) (h : QWF nA Q) :
    (qget nA Q s).length = nA := by
  unfold qget
  cases hl : Q.lookup s with
  | some v => exact h _ (lookup_mem hl)
  | none => simp

theorem qget_ne_nil (nA : ℕ) (Q : QTable) (s : ℕ) (hnA : 0 < nA)
    (h : QWF nA Q) : qget nA Q s ≠ [] := by
  have hlen := length_qget nA Q s h
  intro hc
  rw [hc] at hlen
  simp at hlen
  omega

theorem qtouch_of_present (nA : ℕ) (Q : QTable) (s : ℕ)
    (h : (Q.lookup s).isSome) : qtouch nA Q s = Q := by
  rcases Option.isSome_iff_exists.mp h with ⟨v, hv⟩
  simp [qtouch, hv]

theorem lookup_qtouch_isSome (nA : ℕ) (Q : QTable) (s : ℕ) :
    ((qtouch nA Q s).lookup s).isSome := by
  unfold qtouch
  cases hl : Q.lookup s with
  | some v => simp [hl]
  | none => rw [lookup_cons_self]; rfl

theorem qget_qtouch (nA : ℕ) (Q : QTable) (s t : ℕ) :
    qget nA (qtouch nA Q s) t = qget nA Q t := by
  unfold qtouch
  cases hl : Q.lookup s with
  | some v => rfl
  | none =>
    unfold qget
    by_cases hts : t = s
    · subst hts
      rw [lookup_cons_self, hl]
    · rw [lookup_cons_ne _ _ _ _ hts]

theorem QWF_qtouch (nA : ℕ) (Q : QTable) (s : ℕ) (h : QWF nA Q) :
    QWF nA (qtouch nA Q s) := by
  unfold qtouch
  cases hl : Q.lookup s with
  | some v => exact h
  | none =>
    intro p hp
    rcases List.mem_cons.mp hp with rfl | hp2
    · simp
    · exact h p hp2

theorem QWF_qupdate (nA : ℕ) (Q : QTable) (s : ℕ) (row : List ℚ)
    (h : QWF nA Q) (hrow : row.length = nA) : QWF nA (qupdate Q s row) := by
  induction Q with
  | nil => exact h
  | cons p Q ih =>
    obtain ⟨k, v⟩ := p
    by_cases hk : k = s
    · subst hk
      simp only [qupdate, if_pos rfl]
      intro p hp
      rcases List.mem_cons.mp hp with rfl | hp2
      · exact hrow
      · exact h p (List.mem_cons_of_mem _ hp2)
    · simp only [qupdate, if_neg hk]
      intro p hp
      rcases List.mem_cons.mp hp with rfl | hp2
      · exact h _ (List.mem_cons_self _ _)
      · exact ih (fun q hq => h q (List.mem_cons_of_mem _ hq)) p hp2

theorem lookup_qupdate_self (Q : QTable) (s : ℕ) (row : List ℚ)
    (h : (Q.lookup s).isSome) : (qupdate Q s row).lookup s = some row := by
  induction Q with
  | nil => simp [List.lookup] at h
  | cons p Q ih =>
    obtain ⟨k, v⟩ := p
    by_cases hk : k = s
    · subst hk
      simp only [qupdate, if_pos rfl]
      exact lookup_cons_self _ _ _
    · have hk2 : s ≠ k := fun hc => hk hc.symm
      simp only [qupdate, if_neg hk]
      rw [lookup_cons_ne _ _ _ _ hk2]
      rw [lookup_cons_ne _ _ _ _ hk2] at h
      exact ih h

theorem lookup_qupdate_ne (Q : QTable) (s t : ℕ) (row : List ℚ) (h : t ≠ s) :
    (qupdate Q s row).lookup t = Q.lookup t := by
  induction Q with
  | nil => rfl
  | cons p Q ih =>
    obtain ⟨k, v⟩ := p
    by_cases hk : k = s
    · subst hk
      simp only [qupdate, if_pos rfl, if_true, eq_self_iff_true]
      rw [lookup_cons_ne _ _ _ _ h, lookup_cons_ne _ _ _ _ h]
    · simp only [qupdate, if_neg hk]
      by_cases htk : t = k
      · subst htk
        rw [lookup_cons_self, lookup_cons_self]
      · rw [lookup_cons_ne _ _ _ _ htk, lookup_cons_ne _ _ _ _ htk]
        exact ih

theorem qget_qupdate_self (nA : ℕ) (Q : QTable) (s : ℕ) (row : List ℚ)
    (h : (Q.lookup s).isSome) : qget nA (qupdate Q s row) s = row := by
  unfold qget
  rw [lookup_qupdate_self Q s row h]

theorem qget_qupdate_ne (nA : ℕ) (Q : QTable) (s t : ℕ) (row : List ℚ)
    (h : t ≠ s) : qget nA (qupdate Q s row) t = qget nA Q t := by
  unfold qget
  rw [lookup_qupdate_ne Q s t row h]

/-! ### Policy and step-level lemmas -/

theorem lookup_qtouch_ne (nA : ℕ) (Q : QTable) (s t : ℕ) (h : t ≠ s) :
    (qtouch nA Q s).lookup t = Q.lookup t := by
  unfold qtouch
  cases hl : Q.lookup s with
  | some v => rfl
  | none => exact lookup_cons_ne _ _ _ _ h

theorem lookup_qtouch_isSome_of (nA : ℕ) (Q : QTable) (s t : ℕ)
    (h : (Q.lookup t).isSome) : ((qtouch nA Q s).lookup t).isSome := by
  by_cases hts : t = s
  · subst hts
    exact lookup_qtouch_isSome nA Q t
  · rw [lookup_qtouch_ne nA Q s t hts]
    exact h

theorem length_policy_probs (Q : QTable) (epsilon : ℚ) (nA s : ℕ) :
    (make_epsilon_greedy_policy Q epsilon nA s).1.length = nA := by
  unfold make_epsilon_greedy_policy
  rw [length_addAt, List.length_replicate]

theorem sample4_ok {p : List ℚ} {u : ℚ} {a : ℕ} (h : sample4 p u = .ok a) :
    p.length = 4 ∧ a < 4 := by
  unfold sample4 at h
  split at h
  · rename_i h4
    cases h
    refine ⟨h4, ?_⟩
    have hne : p ≠ [] := by
      intro hc
      rw [hc] at h4
      simp at h4
    have := sampleIdx_lt_length p u hne
    omega
  · exact absurd h (by simp)

theorem qstep_eq {E : Type} (env : Env E) (γ α ε : ℚ) (rng : ℕ → ℚ)
    (i_ep : ℕ) (rs : RunState E) (state i : ℕ) (action : ℕ)
    (ns : ℕ) (reward : ℚ) (done : Bool) (e2 : E)
    (hs : sample4 (make_epsilon_greedy_policy rs.Q ε env.nA state).1 (rng rs.rc)
        = .ok action)
    (hstep : env.step rs.envs action = .ok (ns, reward, done, e2)) :
    qstep env γ α ε rng i_ep rs state i =
      (let Q2 := qtouch env.nA (make_epsilon_greedy_policy rs.Q ε env.nA state).2 ns
       let Q3 := qtouch env.nA Q2 state
       let row := qget env.nA Q3 state
       .ok (⟨qupdate Q3 state (setAt row action
               (td_update α γ (row.getD action 0) reward (qget env.nA Q2 ns)
                 (argmax (qget env.nA Q2 ns)))),
             setAt rs.lengths i_ep (i : ℚ),
             addAt rs.rewards i_ep reward, e2, rs.rc + 1⟩, ns, done)) := by
  unfold qstep
  dsimp only
  rw [hs]
  dsimp only
  rw [hstep]

theorem qstep_cases {E : Type} (env : Env E) (γ α ε : ℚ) (rng : ℕ → ℚ)
    (i_ep : ℕ) (rs : RunState E) (state i : ℕ) (out : RunState E × ℕ × Bool)
    (h : qstep env γ α ε rng i_ep rs state i = .ok out) :
    out.1.lengths = setAt rs.lengths i_ep (i : ℚ) ∧
    out.1.rc = rs.rc + 1 ∧
    (∃ action reward e2,
      env.step rs.envs action = .ok (out.2.1, reward, out.2.2, e2) ∧
      out.1.rewards = addAt rs.rewards i_ep reward ∧
      (QWF env.nA rs.Q → QWF env.nA out.1.Q)) ∧
    (∀ t, t ≠ state → t ≠ out.2.1 → out.1.Q.lookup t = rs.Q.lookup t) := by
  unfold qstep at h
  dsimp only at h
  split at h
  · exact absurd h (by simp)
  · rename_i action hs
    split at h
    · exact absurd h (by simp)
    · rename_i ns reward done e2 hstep
      cases h
      refine ⟨rfl, rfl, ⟨action, reward, e2, hstep, rfl, ?_⟩, ?_⟩
      · intro hwf
        have hwf1 : QWF env.nA (make_epsilon_greedy_policy rs.Q ε env.nA state).2 := by
          unfold make_epsilon_greedy_policy
          exact QWF_qtouch _ _ _ hwf
        have hwf2 := QWF_qtouch env.nA _ ns hwf1
        have hwf3 := QWF_qtouch env.nA _ state hwf2
        refine QWF_qupdate _ _ _ _ hwf3 ?_
        rw [length_setAt]
        exact length_qget _ _ _ hwf3
      · intro t hts htn
        show (qupdate _ state _).lookup t = rs.Q.lookup t
        rw [lookup_qupdate_ne _ _ _ _ hts]
        rw [lookup_qtouch_ne _ _ _ _ hts]
        rw [lookup_qtouch_ne _ _ _ _ htn]
        show (qtouch env.nA rs.Q state).lookup t = rs.Q.lookup t
        rw [lookup_qtouch_ne _ _ _ _ hts]

/-- C1: the action sample on line 73 uses the hardcoded sample-space size
4, not `env.nA`: for every environment whose action count differs from 4,
every step of the learning loop raises the size-mismatch ValueError
instead of sampling an action in `[0, nA)`. -/
theorem C1_sample_space_hardcoded {E : Type} (env : Env E) (γ α ε : ℚ)
    (rng : ℕ → ℚ) (i_ep : ℕ) (rs : RunState E) (state i : ℕ)
    (hnA : env.nA ≠ 4) :
    qstep env γ α ε rng i_ep rs state i = .error .sizeErr := by
  unfold qstep
  dsimp only
  have hlen := length_policy_probs rs.Q ε env.nA state
  unfold sample4
  rw [hlen, if_neg hnA]

/-- C1 witness: a 2-action environment aborts at once with the
size-mismatch error; so does the whole run. -/
theorem C1_sample_space_hardcoded_witness :
    env2W.nA ≠ 4 ∧
    qstep env2W 1 (1/2) (1/10) (fun _ => 0) 0 ⟨[], [0], [0], (), 0⟩ 0 0 =
      .error .sizeErr ∧
    q_learning env2W () 1 1 (1/2) (1/10) (fun _ => 0) 1 = .error .sizeErr :=
  ⟨by decide,
   C1_sample_space_hardcoded env2W 1 (1/2) (1/10) (fun _ => 0) 0
     ⟨[], [0], [0], (), 0⟩ 0 0 (by decide),
   rfl⟩

/-- C5: looking up a state not present in the Q table yields the zero
vector of length `nA` (the defaultdict lazy default), without error and
without prior initialization; moreover a learning step leaves the binding
of every state other than the current and next state untouched, so states
never visited during a run keep that default. -/
theorem C5_unseen_states_zero :
    (∀ (nA : ℕ) (Q : QTable) (s : ℕ), Q.lookup s = none →
      qget nA Q s = List.replicate nA 0) ∧
    (∀ {E : Type} (env : Env E) (γ α ε : ℚ) (rng : ℕ → ℚ) (i_ep : ℕ)
      (rs : RunState E) (state i : ℕ) (out : RunState E × ℕ × Bool),
      qstep env γ α ε rng i_ep rs state i = .ok out →
      ∀ t, t ≠ state → t ≠ out.2.1 → out.1.Q.lookup t = rs.Q.lookup t) := by
  constructor
  · intro nA Q s h
    unfold qget
    rw [h]
  · intro E env γ α ε rng i_ep rs state i out h
    exact (qstep_cases env γ α ε rng i_ep rs state i out h).2.2.2

/-- C5 witness: the empty table reads as zeros at state 7. -/
theorem C5_unseen_states_zero_witness :
    ([] : QTable).lookup 7 = none ∧ qget 4 [] 7 = List.replicate 4 0 :=
  ⟨rfl, C5_unseen_states_zero.1 4 [] 7 rfl⟩

/-- C7 counterexample: querying the returned policy on a state absent
from Q does mutate Q — the defaultdict read inserts the key (the claim
says Q is not mutated in any way). -/
theorem C7_counterexample :
    (make_epsilon_greedy_policy [] (1/10) 4 0).2 ≠ ([] : QTable) := by
  decide

/-- C7 amended: the policy query leaves Q unchanged when the queried state
is present; on an absent state it inserts exactly that state bound to the
zero default row (the defaultdict side effect), and in either case the
value of Q at every state, as read through the lazy-default lookup, is
unchanged — so later updates are not corrupted. -/
theorem C7_policy_effect (Q : QTable) (epsilon : ℚ) (nA : ℕ) (obs : ℕ) :
    ((Q.lookup obs).isSome → (make_epsilon_greedy_policy Q epsilon nA obs).2 = Q) ∧
    (Q.lookup obs = none →
      (make_epsilon_greedy_policy Q epsilon nA obs).2 =
        (obs, List.replicate nA 0) :: Q) ∧
    (∀ t, qget nA (make_epsilon_greedy_policy Q epsilon nA obs).2 t = qget nA Q t) := by
  refine ⟨?_, ?_, ?_⟩
  · intro h
    exact qtouch_of_present nA Q obs h
  · intro h
    show qtouch nA Q obs = _
    unfold qtouch
    rw [h]
  · intro t
    exact qget_qtouch nA Q obs t

/-- C7 witness: at the empty table the insertion and the value-level
no-op are both visible. -/
theorem C7_policy_effect_witness :
    (make_epsilon_greedy_policy [] (1/10) 4 0).2 = [(0, List.replicate 4 0)] ∧
    qget 4 (make_epsilon_greedy_policy [] (1/10) 4 0).2 9 = qget 4 [] 9 :=
  ⟨(C7_policy_effect [] (1/10) 4 0).2.1 rfl,
   (C7_policy_effect [] (1/10) 4 0).2.2 9⟩

/-- C8: the run is a pure function of the environment, the seedable
random stream and the parameters: two runs with identical inputs return
identical Q tables and identical statistics sequences. -/
theorem C8_determinism {E : Type} (env : Env E) (e0 : E) (n : ℕ)
    (γ α ε : ℚ) (rng : ℕ → ℚ) (fuel : ℕ) (r1 r2 : RunResult)
    (h1 : q_learning env e0 n γ α ε rng fuel = .ok r1)
    (h2 : q_learning env e0 n γ α ε rng fuel = .ok r2) :
    r1.Q = r2.Q ∧ r1.episode_lengths = r2.episode_lengths ∧
      r1.episode_rewards = r2.episode_rewards := by
  rw [h1] at h2
  cases h2
  exact ⟨rfl, rfl, rfl⟩

/-- C8 witness: two evaluations of the same concrete run coincide. -/
theorem C8_determinism_witness :
    (⟨[(1, [0, 0, 0, 0]), (0, [1/2, 0, 0, 0])], [0], [1]⟩ : RunResult).Q =
      (⟨[(1, [0, 0, 0, 0]), (0, [1/2, 0, 0, 0])], [0], [1]⟩ : RunResult).Q ∧
    (⟨[(1, [0, 0, 0, 0]), (0, [1/2, 0, 0, 0])], [0], [1]⟩ : RunResult).episode_lengths =
      (⟨[(1, [0, 0, 0, 0]), (0, [1/2, 0, 0, 0])], [0], [1]⟩ : RunResult).episode_lengths ∧
    (⟨[(1, [0, 0, 0, 0]), (0, [1/2, 0, 0, 0])], [0], [1]⟩ : RunResult).episode_rewards =
      (⟨[(1, [0, 0, 0, 0]), (0, [1/2, 0, 0, 0])], [0], [1]⟩ : RunResult).episode_rewards :=
  C8_determinism env4W () 1 1 (1/2) (1/10) (fun _ => 0) 1 _ _
    (by
      simp [q_learning, runEpisodesAux, runEpisodeAux, qstep,
        make_epsilon_greedy_policy, qtouch, qget, qupdate, sample4, sampleIdx,
        argmax, maxList, td_update, setAt, addAt, env4W, List.lookup,
        List.replicate, List.indexOf, List.findIdx, List.findIdx.go]
      norm_num [setAt, addAt])
    (by
      simp [q_learning, runEpisodesAux, runEpisodeAux, qstep,
        make_epsilon_greedy_policy, qtouch, qget, qupdate, sample4, sampleIdx,
        argmax, maxList, td_update, setAt, addAt, env4W, List.lookup,
        List.replicate, List.indexOf, List.findIdx, List.findIdx.go]
      norm_num [setAt, addAt])

/-- C9: an error raised by the environment propagates unchanged to the
caller and aborts the run: a failing `reset` makes `q_learning` return
exactly that error (no Q table, no statistics), and a failing `step`
makes the loop body return exactly that error. -/
theorem C9_env_error_propagates :
    (∀ {E : Type} (env : Env E) (e0 : E) (n : ℕ) (γ α ε : ℚ) (rng : ℕ → ℚ)
      (fuel : ℕ) (msg : String),
      env.reset e0 = .error msg →
      q_learning env e0 (n + 1) γ α ε rng fuel = .error (.envErr msg)) ∧
    (∀ {E : Type} (env : Env E) (γ α ε : ℚ) (rng : ℕ → ℚ) (i_ep : ℕ)
      (rs : RunState E) (state i action : ℕ) (msg : String),
      sample4 (make_epsilon_greedy_policy rs.Q ε env.nA state).1 (rng rs.rc)
        = .ok action →
      env.step rs.envs action = .error msg →
      qstep env γ α ε rng i_ep rs state i = .error (.envErr msg)) := by
  constructor
  · intro E env e0 n γ α ε rng fuel msg hreset
    unfold q_learning runEpisodesAux
    dsimp only
    rw [hreset]
  · intro E env γ α ε rng i_ep rs state i action msg hs hstep
    unfold qstep
    dsimp only
    rw [hs]
    dsimp only
    rw [hstep]

/-- C9 witness: concrete environments whose `reset` resp. `step` raise;
the error string comes back verbatim. -/
theorem C9_env_error_propagates_witness :
    q_learning envResetErrW () 1 1 (1/2) (1/10) (fun _ => 0) 5 =
      .error (.envErr ("reset failed")) ∧
    qstep envStepErrW 1 (1/2) (1/10) (fun _ => 0) 0 ⟨[], [0], [0], (), 0⟩ 0 0 =
      .error (.envErr ("step failed")) :=
  ⟨C9_env_error_propagates.1 envResetErrW () 0 1 (1/2) (1/10) (fun _ => 0) 5
     ("reset failed") rfl,
   C9_env_error_propagates.2 envStepErrW 1 (1/2) (1/10) (fun _ => 0) 0
     ⟨[], [0], [0], (), 0⟩ 0 0 0 ("step failed")
     (by
       simp [sample4, make_epsilon_greedy_policy, qtouch, qget, argmax, maxList,
         addAt, sampleIdx, envStepErrW, List.lookup, List.replicate,
         List.indexOf, List.findIdx, List.findIdx.go]
       norm_num [sampleIdx])
     rfl⟩

/-- C10: the statistics entries of episode `j` are untouched by episode
`i ≠ j`: one full episode at index `i_ep` changes `episode_lengths` and
`episode_rewards` only at index `i_ep`. -/
theorem C10_stats_frame {E : Type} (env : Env E) (γ α ε : ℚ) (rng : ℕ → ℚ)
    (i_ep fuel : ℕ) (rs : RunState E) (state i : ℕ) (rs2 : RunState E)
    (h : runEpisodeAux env γ α ε rng i_ep fuel rs state i = .ok rs2) :
    ∀ j d, j ≠ i_ep →
      rs2.lengths.getD j d = rs.lengths.getD j d ∧
      rs2.rewards.getD j d = rs.rewards.getD j d := by
  induction fuel generalizing rs state i with
  | zero => exact absurd h (by simp [runEpisodeAux])
  | succ fuel ih =>
    unfold runEpisodeAux at h
    split at h
    · exact absurd h (by simp)
    · rename_i rs1 next_state done hq
      obtain ⟨hL, hrc, ⟨a, r, e2, hst, hrew, hQ⟩, hframe⟩ :=
        qstep_cases env γ α ε rng i_ep rs state i _ hq
      split at h
      · cases h
        intro j d hj
        rw [hL, hrew]
        exact ⟨getD_setAt_ne _ _ _ _ _ hj, getD_addAt_ne _ _ _ _ _ hj⟩
      · intro j d hj
        obtain ⟨h21, h22⟩ := ih rs1 next_state (i + 1) h j d hj
        constructor
        · rw [h21, hL, getD_setAt_ne _ _ _ _ _ hj]
        · rw [h22, hrew, getD_addAt_ne _ _ _ _ _ hj]

/-- C10 witness: a concrete one-step episode at index 0 leaves index 1 of
both statistics arrays unchanged. -/
theorem C10_stats_frame_witness :
    (⟨[(1, [0, 0, 0, 0]), (0, [1/2, 0, 0, 0])], [0, 0], [1, 0], (), 1⟩
        : RunState Unit).lengths.getD 1 0 =
      (⟨[], [0, 0], [0, 0], (), 0⟩ : RunState Unit).lengths.getD 1 0 ∧
    (⟨[(1, [0, 0, 0, 0]), (0, [1/2, 0, 0, 0])], [0, 0], [1, 0], (), 1⟩
        : RunState Unit).rewards.getD 1 0 =
      (⟨[], [0, 0], [0, 0], (), 0⟩ : RunState Unit).rewards.getD 1 0 :=
  C10_stats_frame env4W 1 (1/2) (1/10) (fun _ => 0) 0 1
    ⟨[], [0, 0], [0, 0], (), 0⟩ 0 0 _
    (by
      simp [runEpisodeAux, qstep, make_epsilon_greedy_policy, qtouch, qget,
        qupdate, sample4, sampleIdx, argmax, maxList, td_update, setAt, addAt,
        env4W, List.lookup, List.replicate, List.indexOf, List.findIdx,
        List.findIdx.go]
      norm_num [setAt, addAt])
    1 0 (by decide)

/-- C4 counterexample: in a run on a 4-action environment that terminates
every episode after exactly one step (visible here: the draw counter `rc`
goes from 0 to 1, and the per-step reward of 1 accumulates to
`episode_rewards = [1]`), the recorded `episode_lengths` entry is 0 — the
index of the terminal step — not 1, the number of steps taken, so
`episode_lengths[0]` differs from the step count. -/
theorem C4_counterexample :
    runEpisodeAux env4W 1 (1/2) (1/10) (fun _ => 0) 0 1 ⟨[], [0], [0], (), 0⟩ 0 0 =
      .ok ⟨[(1, [0, 0, 0, 0]), (0, [1/2, 0, 0, 0])], [0], [1], (), 1⟩ ∧
    q_learning env4W () 1 1 (1/2) (1/10) (fun _ => 0) 1 =
      .ok ⟨[(1, [0, 0, 0, 0]), (0, [1/2, 0, 0, 0])], [0], [1]⟩ ∧
    (0 : ℚ) ≠ 1 := by
  refine ⟨?_, ?_, by norm_num⟩ <;>
    · simp [q_learning, runEpisodesAux, runEpisodeAux, qstep,
        make_epsilon_greedy_policy, qtouch, qget, qupdate, sample4, sampleIdx,
        argmax, maxList, td_update, setAt, addAt, env4W, List.lookup,
        List.replicate, List.indexOf, List.findIdx, List.findIdx.go]
      norm_num [setAt, addAt]

/-- C4 (amended): after an episode that terminated, `episode_lengths[i]`
holds the zero-based index of the terminal step — one less than the
number of steps taken, where the number of steps equals the number of
random draws `rc₂ - rc₁` (each loop iteration draws exactly once) — and
every step adds exactly the reward returned by `env.step` to
`episode_rewards[i]`, so that entry accumulates the episode's cumulative
reward. -/
theorem C4_stats_semantics {E : Type} :
    (∀ (env : Env E) (γ α ε : ℚ) (rng : ℕ → ℚ) (i_ep fuel : ℕ)
      (rs : RunState E) (state i : ℕ) (rs2 : RunState E),
      runEpisodeAux env γ α ε rng i_ep fuel rs state i = .ok rs2 →
      i_ep < rs.lengths.length →
      rs.rc < rs2.rc ∧
      rs2.lengths.getD i_ep 0 = ((i + (rs2.rc - rs.rc) - 1 : ℕ) : ℚ)) ∧
    (∀ (env : Env E) (γ α ε : ℚ) (rng : ℕ → ℚ) (i_ep : ℕ) (rs : RunState E)
      (state i : ℕ) (out : RunState E × ℕ × Bool),
      qstep env γ α ε rng i_ep rs state i = .ok out →
      ∃ action reward e2,
        env.step rs.envs action = .ok (out.2.1, reward, out.2.2, e2) ∧
        out.1.rewards = addAt rs.rewards i_ep reward) := by
  constructor
  · intro env γ α ε rng i_ep fuel
    induction fuel with
    | zero =>
      intro rs state i rs2 h
      exact absurd h (by simp [runEpisodeAux])
    | succ fuel ih =>
      intro rs state i rs2 h hlen
      unfold runEpisodeAux at h
      split at h
      · exact absurd h (by simp)
      · rename_i rs1 next_state done hq
        obtain ⟨hL, hrc, -, -⟩ := qstep_cases env γ α ε rng i_ep rs state i _ hq
        have hL2 : rs1.lengths = setAt rs.lengths i_ep (i : ℚ) := hL
        have hrc2 : rs1.rc = rs.rc + 1 := hrc
        split at h
        · cases h
          refine ⟨by omega, ?_⟩
          rw [hL2, getD_setAt_self _ _ _ _ hlen]
          congr 1
          omega
        · have hlen1 : i_ep < rs1.lengths.length := by
            rw [hL2, length_setAt]
            exact hlen
          obtain ⟨h21, h22⟩ := ih rs1 next_state (i + 1) rs2 h hlen1
          refine ⟨by omega, ?_⟩
          rw [h22]
          congr 1
          omega
  · intro env γ α ε rng i_ep rs state i out h
    obtain ⟨-, -, ⟨a, r, e2, hst, hrew, -⟩, -⟩ :=
      qstep_cases env γ α ε rng i_ep rs state i _ h
    exact ⟨a, r, e2, hst, hrew⟩

/-- C4 witness: for the concrete one-step episode, the draw counter goes
from 0 to 1 (one step) and the recorded length is `0 + (1 - 0) - 1 = 0`,
the terminal step's index. -/
theorem C4_stats_semantics_witness :
    ((⟨[], [0], [0], (), 0⟩ : RunState Unit).rc <
      (⟨[(1, [0, 0, 0, 0]), (0, [1/2, 0, 0, 0])], [0], [1], (), 1⟩
        : RunState Unit).rc) ∧
    (⟨[(1, [0, 0, 0, 0]), (0, [1/2, 0, 0, 0])], [0], [1], (), 1⟩
        : RunState Unit).lengths.getD 0 0 =
      ((0 + ((⟨[(1, [0, 0, 0, 0]), (0, [1/2, 0, 0, 0])], [0], [1], (), 1⟩
        : RunState Unit).rc - (⟨[], [0], [0], (), 0⟩ : RunState Unit).rc) - 1 : ℕ) : ℚ) :=
  C4_stats_semantics.1 env4W 1 (1/2) (1/10) (fun _ => 0) 0 1
    ⟨[], [0], [0], (), 0⟩ 0 0 _
    (by
      simp [runEpisodeAux, qstep, make_epsilon_greedy_policy, qtouch, qget,
        qupdate, sample4, sampleIdx, argmax, maxList, td_update, setAt, addAt,
        env4W, List.lookup, List.replicate, List.indexOf, List.findIdx,
        List.findIdx.go]
      norm_num [setAt, addAt])
    (by decide)

theorem qstep_StatsInv {E : Type} (env : Env E) (γ α ε : ℚ) (rng : ℕ → ℚ)
    (n i_ep : ℕ) (rs : RunState E) (state i : ℕ) (out : RunState E × ℕ × Bool)
    (hr : RewardNonneg env)
    (h : qstep env γ α ε rng i_ep rs state i = .ok out)
    (hinv : StatsInv n rs.lengths rs.rewards) :
    StatsInv n out.1.lengths out.1.rewards := by
  obtain ⟨hL, -, ⟨a, r, e2, hst, hrew, -⟩, -⟩ :=
    qstep_cases env γ α ε rng i_ep rs state i _ h
  obtain ⟨h1, h2, h3, h4⟩ := hinv
  refine ⟨?_, ?_, ?_, ?_⟩
  · rw [hL, length_setAt]
    exact h1
  · rw [hrew, length_addAt]
    exact h2
  · rw [hL]
    intro x hx
    rcases mem_setAt _ _ _ _ hx with hx2 | rfl
    · exact h3 x hx2
    · exact Nat.cast_nonneg i
  · rw [hrew]
    intro x hx
    rcases mem_addAt _ _ _ _ hx with hx2 | ⟨y, hy, rfl⟩
    · exact h4 x hx2
    · exact add_nonneg (h4 y hy) (hr _ _ _ _ _ _ hst)

theorem runEpisodeAux_StatsInv {E : Type} (env : Env E) (γ α ε : ℚ)
    (rng : ℕ → ℚ) (n i_ep : ℕ) (hr : RewardNonneg env) :
    ∀ (fuel : ℕ) (rs : RunState E) (state i : ℕ) (rs2 : RunState E),
      runEpisodeAux env γ α ε rng i_ep fuel rs state i = .ok rs2 →
      StatsInv n rs.lengths rs.rewards → StatsInv n rs2.lengths rs2.rewards := by
  intro fuel
  induction fuel with
  | zero =>
    intro rs state i rs2 h
    exact absurd h (by simp [runEpisodeAux])
  | succ fuel ih =>
    intro rs state i rs2 h hinv
    unfold runEpisodeAux at h
    split at h
    · exact absurd h (by simp)
    · rename_i rs1 next_state done hq
      have hinv1 : StatsInv n rs1.lengths rs1.rewards :=
        qstep_StatsInv env γ α ε rng n i_ep rs state i _ hr hq hinv
      split at h
      · cases h
        exact hinv1
      · exact ih rs1 next_state (i + 1) rs2 h hinv1

theorem runEpisodesAux_StatsInv {E : Type} (env : Env E) (γ α ε : ℚ)
    (rng : ℕ → ℚ) (n fuel : ℕ) (hr : RewardNonneg env) :
    ∀ (k i_ep : ℕ) (rs : RunState E) (rs2 : RunState E),
      runEpisodesAux env γ α ε rng fuel i_ep k rs = .ok rs2 →
      StatsInv n rs.lengths rs.rewards → StatsInv n rs2.lengths rs2.rewards := by
  intro k
  induction k with
  | zero =>
    intro i_ep rs rs2 h hinv
    simp only [runEpisodesAux] at h
    cases h
    exact hinv
  | succ k ih =>
    intro i_ep rs rs2 h hinv
    unfold runEpisodesAux at h
    split at h
    · exact absurd h (by simp)
    · rename_i state e2 hreset
      split at h
      · exact absurd h (by simp)
      · rename_i rs1 hep
        exact ih (i_ep + 1) rs1 rs2 h
          (runEpisodeAux_StatsInv env γ α ε rng n i_ep hr fuel _ state 0 rs1 hep hinv)


theorem qstep_ShapeInv {E : Type} (env : Env E) (γ α ε : ℚ) (rng : ℕ → ℚ)
    (n i_ep : ℕ) (rs : RunState E) (state i : ℕ) (out : RunState E × ℕ × Bool)
    (h : qstep env γ α ε rng i_ep rs state i = .ok out)
    (hinv : ShapeInv n rs.lengths rs.rewards) :
    ShapeInv n out.1.lengths out.1.rewards := by
  obtain ⟨hL, -, ⟨a, r, e2, hst, hrew, -⟩, -⟩ :=
    qstep_cases env γ α ε rng i_ep rs state i _ h
  obtain ⟨h1, h2, h3⟩ := hinv
  refine ⟨?_, ?_, ?_⟩
  · rw [hL, length_setAt]
    exact h1
  · rw [hrew, length_addAt]
    exact h2
  · rw [hL]
    intro x hx
    rcases mem_setAt _ _ _ _ hx with hx2 | rfl
    · exact h3 x hx2
    · exact Nat.cast_nonneg i

theorem runEpisodeAux_ShapeInv {E : Type} (env : Env E) (γ α ε : ℚ)
    (rng : ℕ → ℚ) (n i_ep : ℕ) :
    ∀ (fuel : ℕ) (rs : RunState E) (state i : ℕ) (rs2 : RunState E),
      runEpisodeAux env γ α ε rng i_ep fuel rs state i = .ok rs2 →
      ShapeInv n rs.lengths rs.rewards → ShapeInv n rs2.lengths rs2.rewards := by
  intro fuel
  induction fuel with
  | zero =>
    intro rs state i rs2 h
    exact absurd h (by simp [runEpisodeAux])
  | succ fuel ih =>
    intro rs state i rs2 h hinv
    unfold runEpisodeAux at h
    split at h
    · exact absurd h (by simp)
    · rename_i rs1 next_state done hq
      have hinv1 : ShapeInv n rs1.lengths rs1.rewards :=
        qstep_ShapeInv env γ α ε rng n i_ep rs state i _ hq hinv
      split at h
      · cases h
        exact hinv1
      · exact ih rs1 next_state (i + 1) rs2 h hinv1

theorem runEpisodesAux_ShapeInv {E : Type} (env : Env E) (γ α ε : ℚ)
    (rng : ℕ → ℚ) (n fuel : ℕ) :
    ∀ (k i_ep : ℕ) (rs : RunState E) (rs2 : RunState E),
      runEpisodesAux env γ α ε rng fuel i_ep k rs = .ok rs2 →
      ShapeInv n rs.lengths rs.rewards → ShapeInv n rs2.lengths rs2.rewards := by
  intro k
  induction k with
  | zero =>
    intro i_ep rs rs2 h hinv
    simp only [runEpisodesAux] at h
    cases h
    exact hinv
  | succ k ih =>
    intro i_ep rs rs2 h hinv
    unfold runEpisodesAux at h
    split at h
    · exact absurd h (by simp)
    · rename_i state e2 hreset
      split at h
      · exact absurd h (by simp)
      · rename_i rs1 hep
        exact ih (i_ep + 1) rs1 rs2 h
          (runEpisodeAux_ShapeInv env γ α ε rng n i_ep fuel _ state 0 rs1 hep hinv)

/-- C6 counterexample: for an environment paying reward `-1` (a standard
cost-per-step environment), the returned `episode_rewards` entry is
negative, refuting "every entry of both sequences is non-negative" for
every environment. -/
theorem C6_counterexample :
    q_learning envNegW () 1 1 (1/2) (1/10) (fun _ => 0) 1 =
      .ok ⟨[(1, [0, 0, 0, 0]), (0, [-1/2, 0, 0, 0])], [0], [-1]⟩ ∧
    ¬ (0 : ℚ) ≤ -1 := by
  constructor
  · simp [q_learning, runEpisodesAux, runEpisodeAux, qstep,
      make_epsilon_greedy_policy, qtouch, qget, qupdate, sample4, sampleIdx,
      argmax, maxList, td_update, setAt, addAt, envNegW, List.lookup,
      List.replicate, List.indexOf, List.findIdx, List.findIdx.go]
    norm_num [setAt, addAt]
  · norm_num

/-- C6 (amended): after a full run on any environment whatsoever, both
statistics sequences have length `num_episodes` and every entry of
`episode_lengths` is non-negative — unconditionally; every entry of
`episode_rewards` is non-negative provided the environment only returns
non-negative rewards (with negative rewards the rewards entries can be
negative, as the counterexample shows). -/
theorem C6_stats_shape {E : Type} (env : Env E) (e0 : E) (n : ℕ)
    (γ α ε : ℚ) (rng : ℕ → ℚ) (fuel : ℕ) (res : RunResult)
    (h : q_learning env e0 n γ α ε rng fuel = .ok res) :
    res.episode_lengths.length = n ∧ res.episode_rewards.length = n ∧
    (∀ x ∈ res.episode_lengths, 0 ≤ x) ∧
    (RewardNonneg env → ∀ x ∈ res.episode_rewards, 0 ≤ x) := by
  have hzeros : ∀ x ∈ List.replicate n (0 : ℚ), 0 ≤ x := by
    intro x hx
    rw [List.eq_of_mem_replicate hx]
  unfold q_learning at h
  split at h
  · exact absurd h (by simp)
  · rename_i rs hrun
    cases h
    have hshape : ShapeInv n rs.lengths rs.rewards :=
      runEpisodesAux_ShapeInv env γ α ε rng n fuel n 0 _ rs hrun
        ⟨List.length_replicate _ _, List.length_replicate _ _, hzeros⟩
    refine ⟨hshape.1, hshape.2.1, hshape.2.2, ?_⟩
    intro hr
    exact (runEpisodesAux_StatsInv env γ α ε rng n fuel hr n 0 _ rs hrun
      ⟨List.length_replicate _ _, List.length_replicate _ _, hzeros, hzeros⟩).2.2.2

/-- C6 witness: the concrete one-episode run on the unit-reward
environment has statistics of length 1 with non-negative entries, the
rewards part via the environment's non-negative rewards. -/
theorem C6_stats_shape_witness :
    (⟨[(1, [0, 0, 0, 0]), (0, [1/2, 0, 0, 0])], [0], [1]⟩
        : RunResult).episode_lengths.length = 1 ∧
    (⟨[(1, [0, 0, 0, 0]), (0, [1/2, 0, 0, 0])], [0], [1]⟩
        : RunResult).episode_rewards.length = 1 ∧
    (∀ x ∈ (⟨[(1, [0, 0, 0, 0]), (0, [1/2, 0, 0, 0])], [0], [1]⟩
        : RunResult).episode_lengths, 0 ≤ x) ∧
    (∀ x ∈ (⟨[(1, [0, 0, 0, 0]), (0, [1/2, 0, 0, 0])], [0], [1]⟩
        : RunResult).episode_rewards, 0 ≤ x) :=
  have h := C6_stats_shape env4W () 1 1 (1/2) (1/10) (fun _ => 0) 1 _
    (by
      simp [q_learning, runEpisodesAux, runEpisodeAux, qstep,
        make_epsilon_greedy_policy, qtouch, qget, qupdate, sample4, sampleIdx,
        argmax, maxList, td_update, setAt, addAt, env4W, List.lookup,
        List.replicate, List.indexOf, List.findIdx, List.findIdx.go]
      norm_num [setAt, addAt])
  ⟨h.1, h.2.1, h.2.2.1, h.2.2.2 (by
    intro e a ns r d e2 hstep
    cases hstep
    norm_num)⟩

/-- C3: for a well-formed Q table, `epsilon ∈ [0,1]`, positive `nA` and
any state, the returned distribution has length `nA`, puts
`epsilon / nA + (1 - epsilon)` on the lowest-index action attaining the
maximum of `Q[state]` (it attains the maximum and no smaller index does)
and `epsilon / nA` on every other action; all entries are non-negative
and sum to 1; with `epsilon = 0` it is the indicator of the argmax and
with `epsilon = 1` it is uniform `1/nA`. -/
theorem C3_epsilon_greedy_distribution (Q : QTable) (epsilon : ℚ) (nA s : ℕ)
    (hnA : 0 < nA) (hwf : QWF nA Q) (h0 : 0 ≤ epsilon) (h1 : epsilon ≤ 1) :
    (make_epsilon_greedy_policy Q epsilon nA s).1.length = nA ∧
    argmax (qget nA Q s) < nA ∧
    (qget nA Q s).getD (argmax (qget nA Q s)) 0 = maxList (qget nA Q s) ∧
    (∀ j < argmax (qget nA Q s), (qget nA Q s).getD j 0 < maxList (qget nA Q s)) ∧
    (make_epsilon_greedy_policy Q epsilon nA s).1.getD (argmax (qget nA Q s)) 0 =
      epsilon / nA + (1 - epsilon) ∧
    (∀ j < nA, j ≠ argmax (qget nA Q s) →
      (make_epsilon_greedy_policy Q epsilon nA s).1.getD j 0 = epsilon / nA) ∧
    (∀ x ∈ (make_epsilon_greedy_policy Q epsilon nA s).1, 0 ≤ x) ∧
    (make_epsilon_greedy_policy Q epsilon nA s).1.sum = 1 ∧
    (epsilon = 0 →
      (make_epsilon_greedy_policy Q epsilon nA s).1.getD (argmax (qget nA Q s)) 0 = 1 ∧
      ∀ j < nA, j ≠ argmax (qget nA Q s) →
        (make_epsilon_greedy_policy Q epsilon nA s).1.getD j 0 = 0) ∧
    (epsilon = 1 → ∀ j < nA,
      (make_epsilon_greedy_policy Q epsilon nA s).1.getD j 0 = 1 / nA) := by
  have hqlen : (qget nA Q s).length = nA := length_qget nA Q s hwf
  have hqne : qget nA Q s ≠ [] := qget_ne_nil nA Q s hnA hwf
  have hb : argmax (qget nA Q s) < nA := by
    have := argmax_lt_length _ hqne
    omega
  have hp : (make_epsilon_greedy_policy Q epsilon nA s).1 =
      addAt (List.replicate nA (epsilon / (nA : ℚ))) (argmax (qget nA Q s))
        (1 - epsilon) := by
    unfold make_epsilon_greedy_policy
    dsimp only
    rw [qget_qtouch]
  have hnAQ : (0 : ℚ) < (nA : ℚ) := by
    exact_mod_cast hnA
  have hbrep : argmax (qget nA Q s) < (List.replicate nA (epsilon / (nA : ℚ))).length := by
    rw [List.length_replicate]
    exact hb
  have hvb : (make_epsilon_greedy_policy Q epsilon nA s).1.getD
      (argmax (qget nA Q s)) 0 = epsilon / nA + (1 - epsilon) := by
    rw [hp, getD_addAt_self _ _ _ _ hbrep, getD_replicate_lt _ _ _ _ hb]
  have hvj : ∀ j < nA, j ≠ argmax (qget nA Q s) →
      (make_epsilon_greedy_policy Q epsilon nA s).1.getD j 0 = epsilon / nA := by
    intro j hj hjb
    rw [hp, getD_addAt_ne _ _ _ _ _ hjb, getD_replicate_lt _ _ _ _ hj]
  refine ⟨length_policy_probs Q epsilon nA s, hb, getD_argmax _ hqne 0,
    fun j hj => getD_lt_argmax_lt _ j hj, hvb, hvj, ?_, ?_, ?_, ?_⟩
  · intro x hx
    rw [hp] at hx
    rcases mem_addAt _ _ _ _ hx with hx2 | ⟨y, hy, rfl⟩
    · rw [List.eq_of_mem_replicate hx2]
      exact div_nonneg h0 (le_of_lt hnAQ)
    · rw [List.eq_of_mem_replicate hy]
      have : (0 : ℚ) ≤ 1 - epsilon := by linarith
      exact add_nonneg (div_nonneg h0 (le_of_lt hnAQ)) this
  · rw [hp, sum_addAt _ _ _ hbrep, List.sum_replicate]
    rw [nsmul_eq_mul]
    field_simp
  · intro he
    subst he
    constructor
    · rw [hvb]
      norm_num
    · intro j hj hjb
      rw [hvj j hj hjb]
      norm_num
  · intro he
    subst he
    intro j hj
    by_cases hjb : j = argmax (qget nA Q s)
    · rw [hjb, hvb]
      norm_num
    · rw [hvj j hj hjb]

/-- C3 witness: a concrete table with a tie (`Q[5] = [1, 3, 3, 0]`),
`epsilon = 1/10`, `nA = 4`. -/
theorem C3_epsilon_greedy_distribution_witness :
    (make_epsilon_greedy_policy [(5, [1, 3, 3, 0])] (1/10) 4 5).1.length = 4 ∧
    argmax (qget 4 [(5, [1, 3, 3, 0])] 5) < 4 ∧
    (qget 4 [(5, [1, 3, 3, 0])] 5).getD (argmax (qget 4 [(5, [1, 3, 3, 0])] 5)) 0 =
      maxList (qget 4 [(5, [1, 3, 3, 0])] 5) ∧
    (∀ j < argmax (qget 4 [(5, [1, 3, 3, 0])] 5),
      (qget 4 [(5, [1, 3, 3, 0])] 5).getD j 0 < maxList (qget 4 [(5, [1, 3, 3, 0])] 5)) ∧
    (make_epsilon_greedy_policy [(5, [1, 3, 3, 0])] (1/10) 4 5).1.getD
        (argmax (qget 4 [(5, [1, 3, 3, 0])] 5)) 0 = (1/10) / 4 + (1 - 1/10) ∧
    (∀ j < 4, j ≠ argmax (qget 4 [(5, [1, 3, 3, 0])] 5) →
      (make_epsilon_greedy_policy [(5, [1, 3, 3, 0])] (1/10) 4 5).1.getD j 0 =
        (1/10) / 4) ∧
    (∀ x ∈ (make_epsilon_greedy_policy [(5, [1, 3, 3, 0])] (1/10) 4 5).1, 0 ≤ x) ∧
    (make_epsilon_greedy_policy [(5, [1, 3, 3, 0])] (1/10) 4 5).1.sum = 1 ∧
    ((1 : ℚ)/10 = 0 →
      (make_epsilon_greedy_policy [(5, [1, 3, 3, 0])] (1/10) 4 5).1.getD
        (argmax (qget 4 [(5, [1, 3, 3, 0])] 5)) 0 = 1 ∧
      ∀ j < 4, j ≠ argmax (qget 4 [(5, [1, 3, 3, 0])] 5) →
        (make_epsilon_greedy_policy [(5, [1, 3, 3, 0])] (1/10) 4 5).1.getD j 0 = 0) ∧
    ((1 : ℚ)/10 = 1 → ∀ j < 4,
      (make_epsilon_greedy_policy [(5, [1, 3, 3, 0])] (1/10) 4 5).1.getD j 0 =
        1 / 4) := by
  have h := C3_epsilon_greedy_distribution [(5, [1, 3, 3, 0])] (1/10) 4 5
    (by decide) (by decide) (by norm_num) (by norm_num)
  exact_mod_cast h

/-- C2: whenever the loop body performs a step observing
`(state, action, reward, next_state)`, it replaces `Q[state][action]` by
`Q[state][action] + alpha * (reward + discount_factor * max(Q[next_state])
- Q[state][action])` — the argmax-then-index expression on lines 76/82
equals the maximum over the `nA`-length value vector of `next_state` —
and in particular the update expression at `Q[s][a] = 0`, `alpha = 1/2`,
`discount_factor = 1`, `reward = 1`, `Q[next_s] = [2, 3]` yields `2`. -/
theorem C2_td_update_applied {E : Type} (env : Env E) (γ α ε : ℚ)
    (rng : ℕ → ℚ) (i_ep : ℕ) (rs : RunState E) (state i action ns : ℕ)
    (reward : ℚ) (done : Bool) (e2 : E)
    (hnA : 0 < env.nA) (hwf : QWF env.nA rs.Q)
    (hs : sample4 (make_epsilon_greedy_policy rs.Q ε env.nA state).1 (rng rs.rc)
        = .ok action)
    (hstep : env.step rs.envs action = .ok (ns, reward, done, e2)) :
    (∃ rs2 : RunState E,
      qstep env γ α ε rng i_ep rs state i = .ok (rs2, ns, done) ∧
      (qget env.nA rs2.Q state).getD action 0 =
        (qget env.nA (qtouch env.nA (qtouch env.nA rs.Q state) ns) state).getD action 0 +
          α * (reward +
            γ * maxList (qget env.nA (qtouch env.nA (qtouch env.nA rs.Q state) ns) ns) -
            (qget env.nA (qtouch env.nA (qtouch env.nA rs.Q state) ns) state).getD action 0)) ∧
    td_update (1/2) 1 0 1 [2, 3] (argmax [2, 3]) = 2 := by
  have heq := qstep_eq env γ α ε rng i_ep rs state i action ns reward done e2 hs hstep
  have hQ1 : (make_epsilon_greedy_policy rs.Q ε env.nA state).2 =
      qtouch env.nA rs.Q state := rfl
  have hpres : ((qtouch env.nA (qtouch env.nA rs.Q state) ns).lookup state).isSome :=
    lookup_qtouch_isSome_of _ _ _ _ (lookup_qtouch_isSome env.nA rs.Q state)
  have hQ3 : qtouch env.nA (qtouch env.nA (qtouch env.nA rs.Q state) ns) state =
      qtouch env.nA (qtouch env.nA rs.Q state) ns :=
    qtouch_of_present _ _ _ hpres
  have hwfm : QWF env.nA (qtouch env.nA (qtouch env.nA rs.Q state) ns) :=
    QWF_qtouch _ _ _ (QWF_qtouch _ _ _ hwf)
  have hlenrow : (qget env.nA (qtouch env.nA (qtouch env.nA rs.Q state) ns) state).length
      = env.nA := length_qget _ _ _ hwfm
  obtain ⟨hp4, ha4⟩ := sample4_ok hs
  rw [length_policy_probs] at hp4
  have haction : action <
      (qget env.nA (qtouch env.nA (qtouch env.nA rs.Q state) ns) state).length := by
    omega
  have hqnsne : qget env.nA (qtouch env.nA (qtouch env.nA rs.Q state) ns) ns ≠ [] :=
    qget_ne_nil _ _ _ hnA hwfm
  have hagm : argmax ([2, 3] : List ℚ) = 1 := by
    have hm : maxList ([2, 3] : List ℚ) = 3 := by
      show max (2 : ℚ) 3 = 3
      norm_num
    unfold argmax
    rw [hm]
    rw [List.indexOf_cons_ne _ (by norm_num), List.indexOf_cons_self]
  rw [hQ1] at heq
  refine ⟨⟨⟨qupdate
      (qtouch env.nA (qtouch env.nA (qtouch env.nA rs.Q state) ns) state) state
      (setAt (qget env.nA (qtouch env.nA (qtouch env.nA (qtouch env.nA rs.Q state) ns) state) state)
        action
        (td_update α γ
          ((qget env.nA (qtouch env.nA (qtouch env.nA (qtouch env.nA rs.Q state) ns) state) state).getD action 0)
          reward (qget env.nA (qtouch env.nA (qtouch env.nA rs.Q state) ns) ns)
          (argmax (qget env.nA (qtouch env.nA (qtouch env.nA rs.Q state) ns) ns)))),
      setAt rs.lengths i_ep (i : ℚ), addAt rs.rewards i_ep reward, e2, rs.rc + 1⟩,
      heq, ?_⟩, ?_⟩
  · dsimp only
    rw [hQ3]
    rw [qget_qupdate_self _ _ _ _ hpres]
    rw [getD_setAt_self _ _ _ _ haction]
    unfold td_update
    rw [getD_argmax _ hqnsne 0]
  · rw [hagm]
    unfold td_update
    show (0 : ℚ) + (1/2) * (1 + 1 * ([2, 3] : List ℚ).getD 1 0 - 0) = 2
    norm_num

/-- C2 witness: the concrete first step on the 4-action environment
(empty table, `alpha = 1/2`, `discount_factor = 1`, reward 1), plus the
claim's concrete update scenario evaluating to 2. -/
theorem C2_td_update_applied_witness :
    (∃ rs2 : RunState Unit,
      qstep env4W 1 (1/2) (1/10) (fun _ => 0) 0 ⟨[], [0], [0], (), 0⟩ 0 0 =
        .ok (rs2, 1, true) ∧
      (qget env4W.nA rs2.Q 0).getD 0 0 =
        (qget env4W.nA (qtouch env4W.nA (qtouch env4W.nA [] 0) 1) 0).getD 0 0 +
          (1/2) * (1 +
            1 * maxList (qget env4W.nA (qtouch env4W.nA (qtouch env4W.nA [] 0) 1) 1) -
            (qget env4W.nA (qtouch env4W.nA (qtouch env4W.nA [] 0) 1) 0).getD 0 0)) ∧
    td_update (1/2) 1 0 1 [2, 3] (argmax [2, 3]) = 2 :=
  C2_td_update_applied env4W 1 (1/2) (1/10) (fun _ => 0) 0
    ⟨[], [0], [0], (), 0⟩ 0 0 0 1 1 true ()
    (by decide) (by decide)
    (by
      simp [sample4, make_epsilon_greedy_policy, qtouch, qget, argmax, maxList,
        addAt, sampleIdx, env4W, List.lookup, List.replicate, List.indexOf,
        List.findIdx, List.findIdx.go]
      norm_num [sampleIdx])
    rfl
